import Mathlib

/-!
Verification of the ManifoldMarketManager rule-evaluation engine.

This file shallowly embeds the resolution-value protocol, the arithmetic
rule combinators, the market orchestration functions and the
Manifold-specific value rules of the repository, and proves the stated
properties about them.

Python values are modelled by the inductive type `PyVal` (rationals stand
in for Python floats), fallible Python code returns `Except PyErr _`, and
stateful code passes the market record explicitly.
-/

namespace MMM

/-- Market outcome types, from `src/consts.py` (`Outcome`). -/
inductive Outcome where
  | BINARY
  | PSEUDO_NUMERIC
  | FREE_RESPONSE
  | MULTIPLE_CHOICE
deriving DecidableEq

/-- The group `Outcome.BINARY_LIKE()` from `src/consts.py`. -/
def Outcome.binaryLike : List Outcome := [.BINARY, .PSEUDO_NUMERIC]

/-- The group `Outcome.MC_LIKE()` from `src/consts.py`. -/
def Outcome.mcLike : List Outcome := [.FREE_RESPONSE, .MULTIPLE_CHOICE]

/-- A Python value, as far as the resolution-value algebra is concerned:
`None`, booleans, ints, floats (modelled as rationals), strings,
sequences, and mappings (insertion-ordered association lists, as Python
dicts are). -/
inductive PyVal where
  | none
  | bool (b : Bool)
  | int (n : Int)
  | float (q : ℚ)
  | str (s : String)
  | list (xs : List PyVal)
  | map (kvs : List (PyVal × PyVal))

/-- Exceptions raised by the embedded code.  `typeError` carries the
offending value, the requested shape and the market id, exactly as the
`raise TypeError(ret, format, market)` of `ResolutionValueRule.value`
does (there `format` is the requested shape parameter).
`typeErrorBuiltinFormat` is the `raise TypeError(ret, format, market)`
of the base `Rule.__binary_value` / `Rule.__multiple_choice_value`,
whose scope has no `format` parameter, so the second argument is the
*builtin* `format` function rather than the requested shape.
`typeErrorBuiltin` is a `TypeError` raised inside a builtin call such as
`int(None)`. -/
inductive PyErr where
  | typeError (v : PyVal) (format : Outcome) (marketId : String)
  | typeErrorBuiltinFormat (v : PyVal) (marketId : String)
  | typeErrorBuiltin
  | valueError
  | runtimeError
  | zeroDivisionError
  | assertionError
deriving Inhabited

/-- Python's `ret == "CANCEL"` test: only the string `"CANCEL"` compares
equal to it (numbers and containers never equal a string). -/
def PyVal.isCancel : PyVal → Bool
  | .str s => s == "CANCEL"
  | _ => false

/-- Python's `ret is None` test. -/
def PyVal.isNone : PyVal → Bool
  | .none => true
  | _ => false

/-- Digits of a decimal literal to a natural number; `Option.none` when the
character list is empty or contains a non-digit. -/
def parseNatDigits : List Char → Option Nat
  | [] => Option.none
  | cs =>
    if cs.all Char.isDigit then
      some (cs.foldl (fun a c => a * 10 + (c.toNat - 48)) 0)
    else
      Option.none

/-- Python's `int(s)` on a string: optional sign and decimal digits
(Python also strips surrounding whitespace, which never occurs in the
values the protocol meets); anything else raises `ValueError`, modelled
by `Option.none`. -/
def parseIntStr (s : String) : Option Int :=
  match s.toList with
  | '-' :: rest => (parseNatDigits rest).map (fun n => -(n : Int))
  | '+' :: rest => (parseNatDigits rest).map (fun n => (n : Int))
  | cs => (parseNatDigits cs).map (fun n => (n : Int))

/-- Decimal literal (digits, optionally with one decimal point) to an
exact rational. -/
def parseDecimal (cs : List Char) : Option ℚ :=
  match cs.span (· ≠ '.') with
  | (intPart, []) => (parseNatDigits intPart).map (fun n => (n : ℚ))
  | (intPart, _dot :: fracPart) =>
    if fracPart.contains '.' then Option.none
    else if intPart = [] ∧ fracPart = [] then Option.none
    else
      let ip : Option Nat := if intPart = [] then some 0 else parseNatDigits intPart
      let fp : Option Nat := if fracPart = [] then some 0 else parseNatDigits fracPart
      match ip, fp with
      | some i, some f => some ((i : ℚ) + (f : ℚ) / ((10 : ℚ) ^ fracPart.length))
      | _, _ => Option.none

/-- Python's `float(s)` on a string, restricted to plain decimal literals
with optional sign (the only forms the resolution protocol meets); a
non-numeric string raises `ValueError`, modelled by `Option.none`. -/
def parseFloatStr (s : String) : Option ℚ :=
  match s.toList with
  | '-' :: rest => (parseDecimal rest).map Neg.neg
  | '+' :: rest => parseDecimal rest
  | cs => parseDecimal cs

/-- Truncation toward zero, as Python's `int()` applied to a float. -/
def ratTrunc (q : ℚ) : Int :=
  if 0 ≤ q then ⌊q⌋ else -⌊-q⌋

/-- Python's `int(x)` on a scalar value: bools map to 0/1, ints are
unchanged, floats truncate toward zero, strings parse as integer
literals; other shapes fail. -/
def pyIntOf : PyVal → Option Int
  | .bool b => some (if b then 1 else 0)
  | .int n => some n
  | .float q => some (ratTrunc q)
  | .str s => parseIntStr s
  | _ => Option.none

/-- The exception Python's `int()` raises when the coercion fails:
`ValueError` for a non-numeric string, `TypeError` (from the builtin)
for `None` and every other non-numeric shape. -/
def intCoerceErr : PyVal → PyErr
  | .str _ => .valueError
  | _ => .typeErrorBuiltin

/-- A Python numeric operand for `+`/`*`: bools count as 0/1, ints and
floats are numbers; anything else (e.g. `None`) raises a type error. -/
def pyNumOf : PyVal → Option ℚ
  | .bool b => some (if b then 1 else 0)
  | .int n => some (n : ℚ)
  | .float q => some q
  | _ => Option.none

/-! Section: The resolution-value protocol, `ResolutionValueRule.value`
(`src/rule/__init__.py`, lines 45-89). -/

/-- The length-1 unwrap of the binary-like branch: a length-1 sequence
(strings are excluded by the `not isinstance(ret, str)` guard) is
replaced by its sole element, a length-1 mapping by its sole key
(`next(iter(ret.items()))[0]`); everything else passes through. -/
def unwrapBinary : PyVal → PyVal
  | .list [x] => x
  | .map [kv] => kv.1
  | v => v

/-- The binary-like branch of `ResolutionValueRule.value`
(`src/rule/__init__.py` lines 58-72): after the length-1 unwrap, ints and
floats are returned as-is (Python bools are ints, so they pass the
`isinstance(ret, (int, float))` test and are returned unchanged); a
string is parsed with `float()` — raising `ValueError` when non-numeric —
and the parse is returned as an `int` when integral, else as the float;
any other shape raises `TypeError(ret, format, market)`. -/
def binaryCoerce (marketId : String) (format : Outcome) (ret0 : PyVal) : Except PyErr PyVal :=
  match unwrapBinary ret0 with
  | .bool b => .ok (.bool b)
  | .int n => .ok (.int n)
  | .float q => .ok (.float q)
  | .str s =>
    match parseFloatStr s with
    | some q => if q.den = 1 then .ok (.int q.num) else .ok (.float q)
    | Option.none => .error .valueError
  | v => .error (.typeError v format marketId)

/-- Python dict insertion: an existing key keeps its position and has its
value replaced; a new key is appended. -/
def intKeyInsert (kvs : List (Int × PyVal)) (k : Int) (v : PyVal) : List (Int × PyVal) :=
  if kvs.any (fun kv => kv.1 = k) then
    kvs.map (fun kv => if kv.1 = k then (k, v) else kv)
  else
    kvs ++ [(k, v)]

/-- The comprehension `{int(val): share for val, share in ret.items()}`: every key is
coerced with `int()` (failure raises `int()`'s own error: `ValueError`
for a string, `TypeError` otherwise), values are unchanged, and the
result is built up by dict insertion in iteration order. -/
def mcMapCoerce (acc : List (Int × PyVal)) : List (PyVal × PyVal) → Except PyErr (List (Int × PyVal))
  | [] => .ok acc
  | kv :: rest =>
    match pyIntOf kv.1 with
    | some n => mcMapCoerce (intKeyInsert acc n kv.2) rest
    | Option.none => .error (intCoerceErr kv.1)

/-- The length-1 unwrap of the MC-like branch (`isinstance(ret, Sequence)
and len(ret) == 1`): a length-1 list is replaced by its sole element.  A
length-1 Python string is also a length-1 `Sequence`, but its sole
element is that same one-character string, so the unwrap is the identity
on strings. -/
def unwrapMC : PyVal → PyVal
  | .list [x] => x
  | v => v

/-- The MC-like branch of `ResolutionValueRule.value`
(`src/rule/__init__.py` lines 73-88): a mapping has all keys coerced to
`int` with values unchanged; otherwise a length-1 sequence is unwrapped
to its sole element; then a string becomes `{int(ret): 1}` (a non-numeric
string raises `ValueError` from `int()`), an int `n` becomes `{n: 1}` (a
Python bool passes the `isinstance(ret, int)` test and becomes
`{ret: 1}` with the bool itself as key), an integral float becomes
`{int(ret): 1}`, a non-integral float raises `ValueError`, and any other
shape raises `TypeError(ret, format, market)`. -/
def mcCoerce (marketId : String) (format : Outcome) (ret0 : PyVal) : Except PyErr PyVal :=
  match ret0 with
  | .map kvs => (mcMapCoerce [] kvs).map (fun l => PyVal.map (l.map (fun kv => (PyVal.int kv.1, kv.2))))
  | _ =>
    match unwrapMC ret0 with
    | .str s =>
      match parseIntStr s with
      | some n => .ok (.map [(.int n, .int 1)])
      | Option.none => .error .valueError
    | .bool b => .ok (.map [(.bool b, .int 1)])
    | .int n => .ok (.map [(.int n, .int 1)])
    | .float q => if q.den = 1 then .ok (.map [(.int q.num, .int 1)]) else .error .valueError
    | v => .error (.typeError v format marketId)

/-- The dispatcher `ResolutionValueRule.value` (`src/rule/__init__.py` lines 45-89) with
the format already defaulted to the market's outcome type: `None` and
`"CANCEL"` raw results are returned unchanged; a binary-like format
dispatches to the binary branch, an MC-like format to the MC branch (the
final `raise ValueError()` is unreachable because `Outcome` has exactly
these four shapes). -/
def ruleValue (marketId : String) (format : Outcome) (raw : PyVal) : Except PyErr PyVal :=
  if raw.isNone then .ok raw
  else if raw.isCancel then .ok raw
  else
    match format with
    | .BINARY | .PSEUDO_NUMERIC => binaryCoerce marketId format raw
    | .FREE_RESPONSE | .MULTIPLE_CHOICE => mcCoerce marketId format raw

/-! Section: Claim-side restatements of the coercion protocol -/

/-- Spec-side restatement of the binary-like coercion, following the
claim's words, applied to the already-unwrapped value: an int or float is
returned unchanged (Python bools are ints), a numeric string is parsed to
float and returned as an int when the parse is integral (else the
float), a string failing the parse surfaces the parse failure, and any
other shape is a type error carrying the value, the requested shape and
the market. -/
def binShapeClaim (marketId : String) (format : Outcome) (u : PyVal) : Except PyErr PyVal :=
  match u with
  | .bool b => .ok (.bool b)
  | .int n => .ok (.int n)
  | .float q => .ok (.float q)
  | .str s =>
    match parseFloatStr s with
    | some q => if q.den = 1 then .ok (.int q.num) else .ok (.float q)
    | Option.none => .error .valueError
  | u => .error (.typeError u format marketId)

/-- Key coercion of a raw mapping, written from the claim's words: every
key is coerced with `int()`, the values stay attached; the whole
coercion fails with `int()`'s own error as soon as one key does not
coerce. -/
def coerceKeysE : List (PyVal × PyVal) → Except PyErr (List (Int × PyVal))
  | [] => .ok []
  | kv :: rest =>
    match pyIntOf kv.1 with
    | some n =>
      match coerceKeysE rest with
      | .ok l => .ok ((n, kv.2) :: l)
      | .error e => .error e
    | Option.none => .error (intCoerceErr kv.1)

/-- Spec-side restatement of the MC-like coercion as amended: a mapping
becomes the same mapping with every key coerced to int and the values
unchanged (a key that does not coerce raises a value error); otherwise a
length-1 sequence is unwrapped to its sole element; a string that parses
as an integer becomes `{int(s): 1}` (a non-numeric string raises a value
error), an int `n` becomes `{n: 1}`, an integral float becomes
`{int(f): 1}`, a non-integral float raises a value error, and any other
shape raises a type error. -/
def mcShapeClaim (marketId : String) (format : Outcome) (r : PyVal) : Except PyErr PyVal :=
  match r with
  | .map kvs =>
    match coerceKeysE kvs with
    | .ok l => .ok (.map (l.map (fun kv => (PyVal.int kv.1, kv.2))))
    | .error e => .error e
  | _ =>
    match unwrapMC r with
    | .str s =>
      match parseIntStr s with
      | some n => .ok (.map [(.int n, .int 1)])
      | Option.none => .error .valueError
    | .bool b => .ok (.map [(.bool b, .int 1)])
    | .int n => .ok (.map [(.int n, .int 1)])
    | .float q => if q.den = 1 then .ok (.map [(.int q.num, .int 1)]) else .error .valueError
    | v => .error (.typeError v format marketId)

/-- When a raw mapping's keys all coerce to int, do the coerced keys come
out pairwise distinct?  (Python dict insertion merges colliding coerced
keys; distinctness is what makes the result "the same mapping".)
Non-mapping values and mappings with a non-coercible key satisfy this
vacuously. -/
def mcKeysDistinct : PyVal → Bool
  | .map kvs =>
    match coerceKeysE kvs with
    | .ok l => decide (l.map Prod.fst).Nodup
    | .error _ => true
  | _ => true

lemma intKeyInsert_of_not_mem {acc : List (Int × PyVal)} {n : Int} (v : PyVal)
    (h : n ∉ acc.map Prod.fst) : intKeyInsert acc n v = acc ++ [(n, v)] := by
  rw [intKeyInsert, if_neg]
  simp only [List.any_eq_true, decide_eq_true_eq, not_exists]
  intro kv
  rintro ⟨hkv, heq⟩
  exact h (heq ▸ List.mem_map_of_mem Prod.fst hkv)

lemma mcMapCoerce_eq_of_nodup :
    ∀ (kvs : List (PyVal × PyVal)) (acc : List (Int × PyVal)) (l : List (Int × PyVal)),
      coerceKeysE kvs = .ok l →
      (acc.map Prod.fst ++ l.map Prod.fst).Nodup →
      mcMapCoerce acc kvs = .ok (acc ++ l) := by
  intro kvs
  induction kvs with
  | nil =>
    intro acc l hl _
    simp only [coerceKeysE, Except.ok.injEq] at hl
    subst hl
    simp [mcMapCoerce]
  | cons kv rest ih =>
    intro acc l hl hnd
    rcases kv with ⟨k, v⟩
    rw [coerceKeysE] at hl
    cases hk : pyIntOf k with
    | none => rw [hk] at hl; cases hl
    | some n =>
      rw [hk] at hl
      cases hrest : coerceKeysE rest with
      | error e => rw [hrest] at hl; cases hl
      | ok l' =>
        rw [hrest] at hl
        injection hl with hl
        subst hl
        have hnotin : n ∉ acc.map Prod.fst := by
          have hdisj := (List.nodup_append.mp hnd).2.2
          intro hmem
          exact hdisj hmem (by simp)
        rw [mcMapCoerce, hk]
        show mcMapCoerce (intKeyInsert acc n v) rest = _
        rw [intKeyInsert_of_not_mem v hnotin]
        have hnd' : ((acc ++ [(n, v)]).map Prod.fst ++ l'.map Prod.fst).Nodup := by
          simpa [List.append_assoc] using hnd
        rw [ih (acc ++ [(n, v)]) l' hrest hnd']
        simp

lemma list_map_div_sum (l : List ℚ) (c : ℚ) :
    (l.map (fun q => q / c)).sum = l.sum / c := by
  induction l with
  | nil => simp
  | cons a as ih => simp [ih, add_div]

/-! Section: The base protocol, `Rule.value` with `Rule.__binary_value`
and `Rule.__multiple_choice_value` (`src/__init__.py`, lines 66-106).
This is the dispatch used by every rule subclassing `Rule` directly —
`OtherMarketValue`, `CurrentValueRule`, `FibonacciValueRule`,
`PopularValueRule` and the generic combinator templates — and it
diverges from the `ResolutionValueRule` override above. -/

/-- Embeds the unwrapping statements of `Rule.__binary_value`
(`src/__init__.py` lines 83-86): any non-string `Sequence` is unpacked
with `(ret, ) = ret`, which raises the unpacking `ValueError` unless it
has exactly one element; a length-1 `Mapping` is replaced by its sole
key; anything else (including mappings of other lengths) passes
through. -/
def binaryUnpackBase : PyVal → Except PyErr PyVal
  | .list [x] => .ok x
  | .list _ => .error .valueError
  | .map [kv] => .ok kv.1
  | v => .ok v

/-- Embeds the type dispatch of `Rule.__binary_value`
(`src/__init__.py` lines 88-93): ints and floats (bools included) are
returned as-is; a string is returned as `float(ret)` — always a float,
with no int-if-integral conversion; any other shape raises
`TypeError(ret, format, market)`, whose second argument is the builtin
`format` function because the method has no `format` parameter. -/
def binaryScalarBase (marketId : String) : PyVal → Except PyErr PyVal
  | .bool b => .ok (.bool b)
  | .int n => .ok (.int n)
  | .float q => .ok (.float q)
  | .str s =>
    match parseFloatStr s with
    | some q => .ok (.float q)
    | Option.none => .error .valueError
  | v => .error (.typeErrorBuiltinFormat v marketId)

/-- Embeds `Rule.__binary_value` (`src/__init__.py` lines 82-93). -/
def binaryValueBase (marketId : String) (ret0 : PyVal) : Except PyErr PyVal :=
  (binaryUnpackBase ret0).bind (binaryScalarBase marketId)

/-- The comprehension `{int(val): 1 for val in ret}` of the Iterable
branch of `Rule.__multiple_choice_value`: every element is int-coerced
with weight 1, any length allowed, built by dict insertion. -/
def mcListCoerce (acc : List (Int × PyVal)) : List PyVal → Except PyErr (List (Int × PyVal))
  | [] => .ok acc
  | x :: xs =>
    match pyIntOf x with
    | some n => mcListCoerce (intKeyInsert acc n (.int 1)) xs
    | Option.none => .error (intCoerceErr x)

/-- The numeric view of the shares that `sum(answers.values())` takes in
`normalize_mapping`: a non-numeric share raises `TypeError` inside the
builtin `sum`. -/
def sharesToQ : List (Int × PyVal) → Except PyErr (List (Int × ℚ))
  | [] => .ok []
  | kv :: rest =>
    match pyNumOf kv.2 with
    | some q =>
      match sharesToQ rest with
      | .ok l => .ok ((kv.1, q) :: l)
      | .error e => .error e
    | Option.none => .error .typeErrorBuiltin

/-- Embeds the trailing `return normalize_mapping(ret)` of
`Rule.__multiple_choice_value`: the shares are summed (the numeric view
is taken first, as `sum` would), an empty mapping comes back empty, a
zero total raises `ZeroDivisionError` on the first division, and
otherwise every share is divided by the total — so the returned values
are scaled, not returned unchanged. -/
def normalizeBase (d : List (Int × PyVal)) : Except PyErr PyVal :=
  match sharesToQ d with
  | .error e => .error e
  | .ok lq =>
    if lq = [] then .ok (.map [])
    else if (lq.map Prod.snd).sum = 0 then .error .zeroDivisionError
    else
      .ok (.map (lq.map
        (fun kv => (PyVal.int kv.1, PyVal.float (kv.2 / (lq.map Prod.snd).sum)))))

/-- Embeds the shape dispatch of `Rule.__multiple_choice_value`
(`src/__init__.py` lines 96-105), producing the pre-normalization
mapping: a `Mapping` has its keys coerced with `int()` (values kept); an
int or a numeric string becomes `{int(ret): 1}` (bools are ints, so
`True` becomes `{1: 1}`); an integral float becomes `{int(ret): 1}`; any
other `Iterable` becomes `{int(val): 1 for val in ret}`, whatever its
length; a non-integral float and every remaining shape raise
`TypeError(ret, format, market)` with the builtin `format` function as
second argument. -/
def mcPreDictBase (marketId : String) : PyVal → Except PyErr (List (Int × PyVal))
  | .map kvs => mcMapCoerce [] kvs
  | .bool b => .ok [(if b then 1 else 0, .int 1)]
  | .int n => .ok [(n, .int 1)]
  | .str s =>
    match parseIntStr s with
    | some n => .ok [(n, .int 1)]
    | Option.none => .error .valueError
  | .float q =>
    if q.den = 1 then .ok [(q.num, .int 1)]
    else .error (.typeErrorBuiltinFormat (.float q) marketId)
  | .list xs => mcListCoerce [] xs
  | v => .error (.typeErrorBuiltinFormat v marketId)

/-- Embeds `Rule.__multiple_choice_value` (`src/__init__.py` lines
95-106). -/
def mcValueBase (marketId : String) (ret0 : PyVal) : Except PyErr PyVal :=
  (mcPreDictBase marketId ret0).bind normalizeBase

/-- Embeds the base `Rule.value` (`src/__init__.py` lines 66-80): `None`
and `"CANCEL"` raw results are returned unchanged (the `'NONE'` format,
which also returns the raw value, is not requested by the claims);
binary-like formats dispatch `Rule.__binary_value`, MC-like formats
`Rule.__multiple_choice_value`. -/
def baseRuleValue (marketId : String) (format : Outcome) (raw : PyVal) : Except PyErr PyVal :=
  if raw.isNone then .ok raw
  else if raw.isCancel then .ok raw
  else
    match format with
    | .BINARY | .PSEUDO_NUMERIC => binaryValueBase marketId raw
    | .FREE_RESPONSE | .MULTIPLE_CHOICE => mcValueBase marketId raw

/-- The weights of a returned Python mapping, read back as rationals. -/
def pyMapWeightSum (l : List (PyVal × PyVal)) : ℚ :=
  (l.map (fun kv => (pyNumOf kv.2).getD 0)).sum

/-- The float 2.5 as an explicit reduced fraction. -/
def ratFiveHalves : ℚ := ⟨5, 2, by decide, by decide⟩

/-! Section: C2 and C3: the coercion protocol -/

/-- C2 counterexample: rules dispatching the base `Rule.value` (e.g.
`OtherMarketValue`, `CurrentValueRule`, the generic combinators) break
the claim: the numeric string `"25"` comes back as the float 25.0 with
no int conversion, and a multi-entry mapping — exactly what
`OtherMarketValue` referencing a multi-answer MC market returns on a
binary host — raises a `TypeError` whose second argument is the builtin
`format` function, not the requested shape. -/
theorem binary_value_protocol_c2_counterexample :
    baseRuleValue "mkt" Outcome.BINARY (PyVal.str "25") = Except.ok (PyVal.float 25)
    ∧ PyVal.float 25 ≠ PyVal.int 25
    ∧ baseRuleValue "mkt" Outcome.BINARY
        (PyVal.map [(PyVal.int 1, PyVal.int 1), (PyVal.int 2, PyVal.int 1)])
      = Except.error (PyErr.typeErrorBuiltinFormat
          (PyVal.map [(PyVal.int 1, PyVal.int 1), (PyVal.int 2, PyVal.int 1)]) "mkt") :=
  ⟨by rfl, fun h => PyVal.noConfusion h, by rfl⟩

/-- C2 (amended): for every market and raw `_value` result that is
neither `None` nor `"CANCEL"`, requesting a binary-like shape (`BINARY`
or `PSEUDO_NUMERIC`): rules subclassing `ResolutionValueRule` first
unwrap a length-1 sequence or length-1 mapping to its sole element/key,
then return an int/float unchanged, parse a numeric string to float
returning an int when the parse is integral (else the float), and raise
a type error carrying the value, the requested shape and the market for
any other input shape; rules dispatching the base `Rule.value` instead
unpack any non-string sequence with `(ret, ) = ret` (a value error
unless it has exactly one element), unwrap a length-1 mapping to its
sole key, return ints/floats unchanged, return `float(s)` for a numeric
string with no int conversion, and raise a type error carrying the
value, the builtin `format` function and the market for any other
shape. -/
theorem binary_value_protocol_c2 (marketId : String) (format : Outcome) (raw : PyVal)
    (hf : format = Outcome.BINARY ∨ format = Outcome.PSEUDO_NUMERIC)
    (hn : raw.isNone = false) (hc : raw.isCancel = false) :
    ruleValue marketId format raw = binShapeClaim marketId format (unwrapBinary raw)
    ∧ baseRuleValue marketId format raw
        = (binaryUnpackBase raw).bind (binaryScalarBase marketId) := by
  constructor
  · have hbc : binaryCoerce marketId format raw
        = binShapeClaim marketId format (unwrapBinary raw) := by
      unfold binaryCoerce binShapeClaim
      cases unwrapBinary raw <;> rfl
    rcases hf with h | h <;> subst h <;> simp [ruleValue, hn, hc, hbc]
  · have hbb : binaryValueBase marketId raw
        = (binaryUnpackBase raw).bind (binaryScalarBase marketId) := rfl
    rcases hf with h | h <;> subst h <;> simp [baseRuleValue, hn, hc, hbb]

/-- Witness for C2: the raw value `"25"` coerced to `BINARY` yields the
integer 25 under the override and the float 25.0 under the base
protocol. -/
theorem binary_value_protocol_c2_witness :
    ruleValue "mkt" Outcome.BINARY (PyVal.str "25") = Except.ok (PyVal.int 25)
    ∧ baseRuleValue "mkt" Outcome.BINARY (PyVal.str "25") = Except.ok (PyVal.float 25) :=
  ⟨((binary_value_protocol_c2 "mkt" Outcome.BINARY (PyVal.str "25")
      (Or.inl rfl) rfl rfl).1).trans (by rfl),
   ((binary_value_protocol_c2 "mkt" Outcome.BINARY (PyVal.str "25")
      (Or.inl rfl) rfl rfl).2).trans (by rfl)⟩

lemma mcMapCoerce_error_of_coerceKeysE :
    ∀ (kvs : List (PyVal × PyVal)) (acc : List (Int × PyVal)) (e : PyErr),
      coerceKeysE kvs = .error e →
      mcMapCoerce acc kvs = .error e := by
  intro kvs
  induction kvs with
  | nil => intro acc e hco; simp [coerceKeysE] at hco
  | cons kv rest ih =>
    intro acc e hco
    rw [coerceKeysE] at hco
    rw [mcMapCoerce]
    cases hkk : pyIntOf kv.1 with
    | none =>
      rw [hkk] at hco
      exact hco
    | some n =>
      rw [hkk] at hco
      cases hrest : coerceKeysE rest with
      | error e2 =>
        rw [hrest] at hco
        injection hco with he
        exact ih _ e (by rw [hrest, he])
      | ok l2 =>
        rw [hrest] at hco
        exact Except.noConfusion hco

lemma normalizeBase_ok_sum (d : List (Int × PyVal)) :
    match normalizeBase d with
    | Except.ok (PyVal.map l) => l = [] ∨ pyMapWeightSum l = 1
    | _ => True := by
  cases hq : sharesToQ d with
  | error e => simp [normalizeBase, hq]
  | ok lq =>
    by_cases hnil : lq = []
    · simp [normalizeBase, hq, hnil]
    · by_cases htz : (lq.map Prod.snd).sum = 0
      · simp [normalizeBase, hq, hnil, htz]
      · simp only [normalizeBase, hq, if_neg hnil, if_neg htz]
        right
        have hcomp : ((lq.map
            (fun kv => (PyVal.int kv.1, PyVal.float (kv.2 / (lq.map Prod.snd).sum)))).map
              (fun kv => (pyNumOf kv.2).getD 0))
            = (lq.map Prod.snd).map (fun q => q / (lq.map Prod.snd).sum) := by
          rw [List.map_map, List.map_map]
          rfl
        rw [pyMapWeightSum, hcomp, list_map_div_sum, div_self htz]

/-- C3 counterexample: rules dispatching the base `Rule.value` break the
claim twice over: a mapping's values are *not* returned unchanged — the
raw mapping `{1: 1, 2: 3}` comes back normalized as `{1: 0.25, 2: 0.75}`
— and a non-integral float (here 2.5) raises a `TypeError` carrying the
builtin `format` function, not the claimed value error. -/
theorem mc_value_protocol_c3_counterexample :
    baseRuleValue "mkt" Outcome.FREE_RESPONSE
        (PyVal.map [(PyVal.int 1, PyVal.int 1), (PyVal.int 2, PyVal.int 3)])
      = Except.ok (PyVal.map [(PyVal.int 1, PyVal.float (1/4)),
          (PyVal.int 2, PyVal.float (3/4))])
    ∧ baseRuleValue "mkt" Outcome.FREE_RESPONSE (PyVal.float ratFiveHalves)
      = Except.error (PyErr.typeErrorBuiltinFormat (PyVal.float ratFiveHalves) "mkt") := by
  constructor
  · have h0 : baseRuleValue "mkt" Outcome.FREE_RESPONSE
        (PyVal.map [(PyVal.int 1, PyVal.int 1), (PyVal.int 2, PyVal.int 3)])
        = normalizeBase [(1, PyVal.int 1), (2, PyVal.int 3)] := by rfl
    rw [h0]
    simp only [normalizeBase, sharesToQ, pyNumOf]
    norm_num
    intro h
    exact absurd h (List.cons_ne_nil _ _)
  · rfl

/-- C3 (amended): for every market and raw `_value` result that is
neither `None` nor `"CANCEL"`, requesting an MC-like shape
(`FREE_RESPONSE` or `MULTIPLE_CHOICE`): rules subclassing
`ResolutionValueRule` return, for a mapping whose keys coerce to
pairwise-distinct ints, the same mapping with every key coerced to int
and the values unchanged (a key on which `int()` fails raises `int()`'s
own error); for a length-1 sequence, its sole element is treated as a
direct value; for a string that parses as an integer, `{int(s): 1}` (a
non-numeric string raises a value error); for an int, `{n: 1}`; for an
integral float, `{int(f): 1}`; a non-integral float raises a value error
and any other input a type error.  Rules dispatching the base
`Rule.value` instead build the pre-normalization mapping — `{int(k): v}`
for a mapping, `{int(r): 1}` for an int, bool, numeric string or
integral float, `{int(x): 1 for x in r}` for any other iterable of any
length, with a type error carrying the value, the builtin `format`
function and the market for a non-integral float or any other shape —
and then normalize it, so whenever they return a non-empty mapping its
values are the shares divided by their total and sum to 1. -/
theorem mc_value_protocol_c3 (marketId : String) (format : Outcome) (raw : PyVal)
    (hf : format = Outcome.FREE_RESPONSE ∨ format = Outcome.MULTIPLE_CHOICE)
    (hn : raw.isNone = false) (hc : raw.isCancel = false)
    (hk : mcKeysDistinct raw = true) :
    ruleValue marketId format raw = mcShapeClaim marketId format raw
    ∧ baseRuleValue marketId format raw = (mcPreDictBase marketId raw).bind normalizeBase
    ∧ (match (mcPreDictBase marketId raw).bind normalizeBase with
       | Except.ok (PyVal.map l) => l = [] ∨ pyMapWeightSum l = 1
       | _ => True) := by
  refine ⟨?_, ?_, ?_⟩
  · have hmc : mcCoerce marketId format raw = mcShapeClaim marketId format raw := by
      cases raw with
      | map kvs =>
        rw [mcCoerce, mcShapeClaim]
        cases hco : coerceKeysE kvs with
        | error e =>
          rw [mcMapCoerce_error_of_coerceKeysE kvs [] e hco]
          rfl
        | ok l =>
          have hnd : (l.map Prod.fst).Nodup := by
            rw [mcKeysDistinct, hco] at hk
            exact of_decide_eq_true hk
          rw [mcMapCoerce_eq_of_nodup kvs [] l hco (by simpa using hnd)]
          rfl
      | none => rfl
      | bool b => rfl
      | int n => rfl
      | float q => rfl
      | str s => rfl
      | list xs => rcases xs with _ | ⟨x, _ | ⟨y, rest⟩⟩ <;> rfl
    rcases hf with h | h <;> subst h <;> simp [ruleValue, hn, hc, hmc]
  · have hmb : mcValueBase marketId raw = (mcPreDictBase marketId raw).bind normalizeBase := rfl
    rcases hf with h | h <;> subst h <;> simp [baseRuleValue, hn, hc, hmb]
  · cases hpd : mcPreDictBase marketId raw with
    | error e => simp [hpd, Except.bind]
    | ok d =>
      simp only [hpd, Except.bind]
      exact normalizeBase_ok_sum d

/-- Witness for C3: the raw mapping `{3: 0.5}` keeps its value under the
override, while the base protocol turns the raw int 7 into the
normalized singleton `{7: 1.0}`. -/
theorem mc_value_protocol_c3_witness :
    ruleValue "mkt" Outcome.FREE_RESPONSE (PyVal.map [(PyVal.str "3", PyVal.float (1/2))])
      = Except.ok (PyVal.map [(PyVal.int 3, PyVal.float (1/2))])
    ∧ baseRuleValue "mkt" Outcome.FREE_RESPONSE (PyVal.int 7)
      = Except.ok (PyVal.map [(PyVal.int 7, PyVal.float 1)]) :=
  ⟨((mc_value_protocol_c3 "mkt" Outcome.FREE_RESPONSE
      (PyVal.map [(PyVal.str "3", PyVal.float (1/2))])
      (Or.inl rfl) rfl rfl (by rfl)).1).trans (by rfl),
   ((mc_value_protocol_c3 "mkt" Outcome.FREE_RESPONSE (PyVal.int 7)
      (Or.inl rfl) rfl rfl (by rfl)).2.1).trans (by
        have h0 : (mcPreDictBase "mkt" (PyVal.int 7)).bind normalizeBase
            = normalizeBase [(7, PyVal.int 1)] := by rfl
        rw [h0]
        simp only [normalizeBase, sharesToQ, pyNumOf]
        norm_num)⟩

/-! Section: C1: the variadic arithmetic combinators
(`src/rule/generic/value.py`). -/

/-- The loop of `AdditiveRule._value` (`src/rule/generic/value.py` lines
61-72): each child rule is represented by its raw `_value` output; every
child is formatted with `value(market, format='PSEUDO_NUMERIC')`, a child
formatting to `"CANCEL"` returns `"CANCEL"` immediately, and otherwise
the child's number is added onto the accumulator (`ret += val`). -/
def additiveRuleGo (marketId : String) (acc : ℚ) : List PyVal → Except PyErr PyVal
  | [] => .ok (.float acc)
  | c :: cs =>
    match ruleValue marketId .PSEUDO_NUMERIC c with
    | .error e => .error e
    | .ok v =>
      if v.isCancel then .ok (.str "CANCEL")
      else
        match pyNumOf v with
        | some q => additiveRuleGo marketId (acc + q) cs
        | Option.none => .error (.typeError v .PSEUDO_NUMERIC marketId)

/-- Embeds `AdditiveRule._value`: the fold starts from `ret: float = 0`. -/
def additiveRuleValue (marketId : String) (children : List PyVal) : Except PyErr PyVal :=
  additiveRuleGo marketId 0 children

/-- The loop of `MultiplicitiveRule._value` (`src/rule/generic/value.py`
lines 91-102), identical to the additive loop except that the
accumulator is multiplied (`ret *= val`). -/
def multiplicitiveRuleGo (marketId : String) (acc : ℚ) : List PyVal → Except PyErr PyVal
  | [] => .ok (.float acc)
  | c :: cs =>
    match ruleValue marketId .PSEUDO_NUMERIC c with
    | .error e => .error e
    | .ok v =>
      if v.isCancel then .ok (.str "CANCEL")
      else
        match pyNumOf v with
        | some q => multiplicitiveRuleGo marketId (acc * q) cs
        | Option.none => .error (.typeError v .PSEUDO_NUMERIC marketId)

/-- Embeds `MultiplicitiveRule._value`: the source initialises the accumulator
to `ret: float = 0` (not 1) before multiplying. -/
def multiplicitiveRuleValue (marketId : String) (children : List PyVal) : Except PyErr PyVal :=
  multiplicitiveRuleGo marketId 0 children

/-- C1 (code bug): over children whose `PSEUDO_NUMERIC`-formatted values
are 2 and 3, `MultiplicitiveRule._value` returns 0, not the product 6 —
the accumulator starts at 0, so the product of any cancel-free child
list is 0, contradicting the docstring "Return the product of the
underlying rules". -/
theorem multiplicitive_rule_zero_c1 :
    multiplicitiveRuleValue "mkt" [PyVal.int 2, PyVal.int 3] = Except.ok (PyVal.float 0) := by
  show Except.ok (PyVal.float ((0 : ℚ) * 2 * 3)) = Except.ok (PyVal.float 0)
  norm_num

/-! Section: C4 and C6: market orchestration (`src/market.py`). -/

/-- The fields of the Manifold API market snapshot (`pymanifold`'s
`Market`) that the embedded code reads.  Answer entries are already in
the `(int(id), float(probability))` form `market_to_answer_map`
produces. -/
structure APIMarket where
  id : String
  outcomeType : Outcome
  isResolved : Bool
  probability : Option ℚ
  answers : List (Int × ℚ)
  resolution : Option String
  resolutionProbability : Option ℚ
deriving DecidableEq

/-- Python truthiness of a raw rule result: `None`, `False`, zero, empty
string and empty containers are falsy. -/
def pyTruthy : PyVal → Bool
  | .none => false
  | .bool b => b
  | .int n => n ≠ 0
  | .float q => q ≠ 0
  | .str s => s ≠ ""
  | .list [] => false
  | .list (_ :: _) => true
  | .map [] => false
  | .map (_ :: _) => true

/-- Embeds `Market.should_resolve` (`src/market.py` lines 206-209): every
do-resolve rule (represented by its result) is evaluated, and the market
should resolve iff any result is truthy and the market is not already
resolved. -/
def shouldResolve (mkt : APIMarket) (results : List PyVal) : Bool :=
  (results.any pyTruthy) && !mkt.isResolved

/-- C6: `Market.should_resolve()` returns True iff at least one
do-resolve rule evaluates to a truthy value (`None` and every falsy
value count as "no") and the market is not already marked resolved; in
particular it returns False when `do_resolve_rules` is empty or when the
market's `isResolved` flag is set. -/
theorem should_resolve_c6 (mkt : APIMarket) (results : List PyVal) :
    (shouldResolve mkt results = true ↔
      (∃ r ∈ results, pyTruthy r = true) ∧ mkt.isResolved = false)
    ∧ shouldResolve mkt [] = false
    ∧ (mkt.isResolved = true → shouldResolve mkt results = false) := by
  refine ⟨?_, ?_, ?_⟩
  · simp [shouldResolve, List.any_eq_true]
  · simp [shouldResolve]
  · intro h
    simp [shouldResolve, h]

/-- Witness for C6: a single truthy rule on an unresolved market makes
`should_resolve` return True. -/
theorem should_resolve_c6_witness :
    shouldResolve ⟨"m1", Outcome.BINARY, false, some (1/2), [], Option.none, Option.none⟩
      [PyVal.bool true] = true :=
  (should_resolve_c6 ⟨"m1", Outcome.BINARY, false, some (1/2), [], Option.none, Option.none⟩
      [PyVal.bool true]).1.mpr ⟨⟨PyVal.bool true, by simp, rfl⟩, rfl⟩

/-- The loop of `Market.resolve_to` (`src/market.py` lines 211-232): the
futures of `rule.value(self, format=self.market.outcomeType)` are
consumed in declared list order and the first non-None result is chosen;
if every rule returns None, a `RuntimeError` is raised.  Rules are
represented by their raw `_value` outputs. -/
def resolveToGo (mkt : APIMarket) : List PyVal → Except PyErr PyVal
  | [] => .error .runtimeError
  | r :: rs =>
    match ruleValue mkt.id mkt.outcomeType r with
    | .error e => .error e
    | .ok v => if v.isNone then resolveToGo mkt rs else .ok v

/-- Embeds `Market.resolve_to`. -/
def resolveTo (mkt : APIMarket) (raws : List PyVal) : Except PyErr PyVal :=
  resolveToGo mkt raws

/-- Spec-side "first non-null" selection. -/
def firstNonNull : List PyVal → Option PyVal
  | [] => Option.none
  | v :: vs => if v.isNone then firstNonNull vs else some v

/-- C4: when every resolve-to rule evaluates without exception,
`Market.resolve_to()` returns the value of the first rule in declared
list order whose value, coerced to the market's own outcome-type shape,
is non-None, and raises a `RuntimeError` exactly when every rule returns
None (the `match` is `none` exactly in that case). -/
theorem resolve_to_c4 (mkt : APIMarket) (raws : List PyVal)
    (h : ∀ r ∈ raws, ∃ v, ruleValue mkt.id mkt.outcomeType r = Except.ok v) :
    resolveTo mkt raws =
      match firstNonNull
          (raws.filterMap (fun r => (ruleValue mkt.id mkt.outcomeType r).toOption)) with
      | some v => Except.ok v
      | Option.none => Except.error PyErr.runtimeError := by
  induction raws with
  | nil => rfl
  | cons r rs ih =>
    obtain ⟨v, hv⟩ := h r (List.mem_cons_self r rs)
    have hrest := ih (fun x hx => h x (List.mem_cons_of_mem r hx))
    rw [resolveTo] at hrest ⊢
    rw [List.filterMap_cons, resolveToGo, hv]
    simp only [Except.toOption]
    by_cases hnone : v.isNone = true
    · rw [if_pos hnone, firstNonNull, if_pos hnone]
      exact hrest
    · rw [if_neg hnone, firstNonNull, if_neg hnone]

/-- Witness for C4: with rules returning `None` then `5` on a binary
market, `resolve_to` returns 5. -/
theorem resolve_to_c4_witness :
    resolveTo ⟨"m2", Outcome.BINARY, false, some (1/2), [], Option.none, Option.none⟩
      [PyVal.none, PyVal.int 5] = Except.ok (PyVal.int 5) :=
  (resolve_to_c4 ⟨"m2", Outcome.BINARY, false, some (1/2), [], Option.none, Option.none⟩
      [PyVal.none, PyVal.int 5]
      (by
        intro r hr
        simp only [List.mem_cons, List.not_mem_nil, or_false] at hr
        rcases hr with rfl | rfl
        · exact ⟨PyVal.none, rfl⟩
        · exact ⟨PyVal.int 5, rfl⟩)).trans (by rfl)

/-! Section: C7: the amplified-odds scheme (`src/rule/manifold/other.py`). -/

/-- Lift an optional probability to a Python value (`cast(float, x)` in
the source is a runtime no-op, so a missing probability stays `None`). -/
def optFloat : Option ℚ → PyVal
  | some q => .float q
  | Option.none => .none

/-- Embeds `OtherMarketValue._binary_value` (`src/rule/manifold/other.py` lines
72-81): a resolved market yields `True` for `"YES"`, `False` for
`"NO"`, and otherwise its resolution probability; an unresolved market
yields its live probability. -/
def otherMarketBinaryValue (mkt : APIMarket) : PyVal :=
  if mkt.isResolved then
    if mkt.resolution = some "YES" then .bool true
    else if mkt.resolution = some "NO" then .bool false
    else optFloat mkt.resolutionProbability
  else optFloat mkt.probability

/-- Embeds `AmplifiedOddsRule._value` (`src/rule/manifold/other.py` lines
139-147).  `draw` stands for the output of
`ResolveRandomSeed._value(self, market)`, the deterministic draw of the
seeded PRNG (the PRNG itself is the standard library's, outside the
embedded code).  The scheme requires a factor `a ≥ 1`; Python's
`1 / self.a` would raise on `a = 0`. -/
def amplifiedOddsValue (a : Int) (draw : ℚ) (refMkt : APIMarket) : Except PyErr PyVal :=
  match otherMarketBinaryValue refMkt with
  | .bool true => .ok (.bool true)
  | .bool false =>
    if draw < 1 / (a : ℚ) then .ok (.bool false) else .ok (.str "CANCEL")
  | .float p => .ok (.float (p / (p + (1 - p) / (a : ℚ)) * 100))
  | v => .error (.typeError v .BINARY refMkt.id)

/-- C7: for an `AmplifiedOddsRule` with factor `a` referencing a binary
market: if the referenced market's value is `True` the rule returns
`True`; if it is `False` the rule draws from the seeded PRNG and returns
`False` when the draw is `< 1/a`, otherwise `"CANCEL"`; and if the value
is an intermediate probability `p` it returns
`p / (p + (1 - p)/a) * 100`, with exactly this operator precedence. -/
theorem amplified_odds_c7 (a : Int) (ha : 1 ≤ a) (draw p : ℚ) (refMkt : APIMarket) :
    (otherMarketBinaryValue refMkt = PyVal.bool true →
        amplifiedOddsValue a draw refMkt = Except.ok (PyVal.bool true))
    ∧ (otherMarketBinaryValue refMkt = PyVal.bool false →
        amplifiedOddsValue a draw refMkt =
          if draw < 1 / (a : ℚ) then Except.ok (PyVal.bool false)
          else Except.ok (PyVal.str "CANCEL"))
    ∧ (otherMarketBinaryValue refMkt = PyVal.float p →
        amplifiedOddsValue a draw refMkt =
          Except.ok (PyVal.float (p / (p + (1 - p) / (a : ℚ)) * 100))) := by
  refine ⟨fun h => ?_, fun h => ?_, fun h => ?_⟩ <;> simp [amplifiedOddsValue, h]

/-- Witness for C7: a referenced market resolved NO, factor 100 and a
draw of 1/200 < 1/100 resolve False. -/
theorem amplified_odds_c7_witness :
    amplifiedOddsValue 100 (1/200)
      ⟨"ref", Outcome.BINARY, true, Option.none, [], some "NO", Option.none⟩
      = Except.ok (PyVal.bool false) :=
  ((amplified_odds_c7 100 (by norm_num) (1/200) 0
      ⟨"ref", Outcome.BINARY, true, Option.none, [], some "NO", Option.none⟩).2.1
    (by rfl)).trans (by norm_num)

/-! Section: C10: probability-to-number conversion (`src/util.py`). -/

/-- Embeds `prob_to_number_cpmm1` (`src/util.py` lines 116-123): the log-scale
branch computes `(end - start + 1)**probability + start - 1`, the linear
branch `start + (end - start) * probability`, and the result is clamped
with `max(start, min(end, ret))`.  Reals model Python floats here since
the log-scale branch takes a real exponential. -/
noncomputable def prob_to_number_cpmm1 (probability start end_ : ℝ) (isLogScale : Bool) : ℝ :=
  let ret : ℝ :=
    if isLogScale then Real.rpow (end_ - start + 1) probability + start - 1
    else start + (end_ - start) * probability
  max start (min end_ ret)

/-- C10: for every probability input and all bounds with `start < end`,
`prob_to_number_cpmm1(probability, start, end, isLogScale)` returns a
value in `[start, end]` — the result is clamped to the market's declared
numeric range. -/
theorem prob_to_number_clamped_c10 (probability start end_ : ℝ) (isLogScale : Bool)
    (h : start < end_) :
    start ≤ prob_to_number_cpmm1 probability start end_ isLogScale
    ∧ prob_to_number_cpmm1 probability start end_ isLogScale ≤ end_ := by
  unfold prob_to_number_cpmm1
  exact ⟨le_max_left _ _, max_le h.le (min_le_left _ _)⟩

/-- Witness for C10 on the linear branch with range [0, 10]. -/
theorem prob_to_number_clamped_c10_witness :
    (0 : ℝ) ≤ prob_to_number_cpmm1 (1/2) 0 10 false
    ∧ prob_to_number_cpmm1 (1/2) 0 10 false ≤ 10 :=
  prob_to_number_clamped_c10 (1/2) 0 10 false (by norm_num)

/-! Section: The market record and the Manifold value rules
(`src/market.py`, `src/util.py`, `src/rule/manifold/this.py`). -/

/-- The local `Market` record as rule evaluation sees it: the API
snapshot plus a stand-in (`notes`) for the orchestrator-owned fields. -/
structure MarketRec where
  market : APIMarket
  notes : String
deriving DecidableEq

/-- Modelled from the spec: `Market.refresh` is called by
`ThisToOtherConverter.api_market`, `FibonacciValueRule._value` and
`PopularValueRule._value` (`src/rule/manifold/this.py` lines 34, 70 and
106) but is defined nowhere under the sources; per the spec's data model
("mutated on each scan ..., possibly the Market snapshot") and the
deserialisation pattern `self.market = self.client.get_market_by_id(
self.market.id)`, it replaces the stored snapshot with a freshly fetched
one.  `env` stands for the external market-lookup collaborator. -/
def MarketRec.refresh (env : String → APIMarket) (m : MarketRec) : MarketRec :=
  { m with market := env m.market.id }

/-- Embeds `market_to_answer_map` (`src/util.py` lines 51-91): non-MC-like
markets raise `RuntimeError`, an empty answer list fails the
`assert mkt.answers`, and otherwise the answers are filtered by
`key not in exclude and not any(f(key, value) for f in filters)`.
(The Python builds a dict first, so duplicate answer ids would merge;
answer ids are unique in API data, and the list form keeps them.) -/
def market_to_answer_map (mkt : APIMarket) (exclude : List Int)
    (filters : List (Int → ℚ → Bool)) : Except PyErr (List (Int × ℚ)) :=
  if ¬(mkt.outcomeType = .FREE_RESPONSE ∨ mkt.outcomeType = .MULTIPLE_CHOICE) then
    .error .runtimeError
  else if mkt.answers = [] then .error .assertionError
  else
    .ok (mkt.answers.filter
      (fun kv => !(exclude.contains kv.1) && !(filters.any (fun f => f kv.1 kv.2))))

/-- Embeds `normalize_mapping` (`src/util.py` lines 94-97): the weights are
divided by their total; an empty mapping comes back empty (the
comprehension never divides), while a non-empty mapping whose weights
sum to zero hits `ZeroDivisionError` on the first division. -/
def normalize_mapping (l : List (Int × ℚ)) : Except PyErr (List (Int × ℚ)) :=
  if l = [] then .ok []
  else if (l.map Prod.snd).sum = 0 then .error .zeroDivisionError
  else .ok (l.map (fun kv => (kv.1, kv.2 / (l.map Prod.snd).sum)))

/-- One step of the generator state `(x, y)` of `fibonacci` in
`src/util.py` lines 40-48, starting from `(0, 1)`. -/
def fibPair : Nat → Nat × Nat
  | 0 => (0, 1)
  | n + 1 => ((fibPair n).2, (fibPair n).1 + (fibPair n).2)

/-- The i-th value (0-based) yielded by `fibonacci()` with the default
`start = 1`: the stream 1, 1, 2, 3, 5, 8, ... -/
def fibonacci (i : Nat) : Nat := (fibPair (1 + i)).1

/-- Ascending-probability comparison used by
`sorted(items, key=items.__getitem__)`. -/
def probLE (a b : Int × ℚ) : Prop := a.2 ≤ b.2

instance : DecidableRel probLE := fun a b => inferInstanceAs (Decidable (a.2 ≤ b.2))

instance : IsTotal (Int × ℚ) probLE := ⟨fun a b => le_total a.2 b.2⟩

instance : IsTrans (Int × ℚ) probLE := ⟨fun _ _ _ => le_trans⟩

/-- Embeds `FibonacciValueRule._value` (`src/rule/manifold/this.py` lines
69-74): refresh the market, take the answer map with the excluded ids
and the ids whose probability is below `min_rewarded` dropped, sort
ascending by probability (`sorted` is stable, as insertion sort is),
pair the ranked answers with the successive Fibonacci numbers as
weights, and normalize.  The pair's key is the ranked answer id, exactly
as `zip(rank, fibonacci())` pairs the sorted keys with the stream. -/
def fibonacciValueRule (env : String → APIMarket) (exclude : List Int) (minRewarded : ℚ)
    (m : MarketRec) : Except PyErr (List (Int × ℚ)) × MarketRec :=
  let m' := m.refresh env
  match market_to_answer_map m'.market exclude [fun _ p => p < minRewarded] with
  | .error e => (.error e, m')
  | .ok items =>
    let sorted := List.insertionSort probLE items
    let ret := List.zipWith (fun kv i => (kv.1, (fibonacci i : ℚ))) sorted
      (List.range sorted.length)
    (normalize_mapping ret, m')

/-- Python's `max(answers, key=answers.__getitem__)` keeps the first maximal
entry: the accumulator is replaced only on a strictly greater value. -/
def argmaxGo (best : Int × ℚ) : List (Int × ℚ) → Int × ℚ
  | [] => best
  | x :: xs => argmaxGo (if best.2 < x.2 then x else best) xs

/-- Python's `max` over the answer mapping; `Option.none` is the
`ValueError: max() arg is an empty sequence` case. -/
def argmaxFirst : List (Int × ℚ) → Option (Int × ℚ)
  | [] => Option.none
  | x :: xs => some (argmaxGo x xs)

/-- Embeds `del answers[next_answer]`. -/
def delKey (k : Int) (l : List (Int × ℚ)) : List (Int × ℚ) :=
  l.eraseP (fun kv => kv.1 == k)

/-- The `for _ in range(self.size)` argmax-and-remove loop of
`PopularValueRule._value` (`src/rule/manifold/this.py` lines 109-117):
each round moves the highest-probability answer into `final_answers`;
when the pool runs dry, `max` raises the empty-sequence `ValueError`,
which the `except` clause swallows, ending the loop. -/
def popularLoop : Nat → List (Int × ℚ) → List (Int × ℚ) → List (Int × ℚ)
  | 0, final, _ => final
  | k + 1, final, answers =>
    match argmaxFirst answers with
    | Option.none => final
    | some kv => popularLoop k (final ++ [kv]) (delKey kv.1 answers)

/-- Embeds `PopularValueRule._value` (`src/rule/manifold/this.py` lines
105-118): refresh, take the full answer map, run the argmax-and-remove
loop `size` times, and normalize the selection. -/
def popularValueRule (env : String → APIMarket) (size : Nat)
    (m : MarketRec) : Except PyErr (List (Int × ℚ)) × MarketRec :=
  let m' := m.refresh env
  match market_to_answer_map m'.market [] [] with
  | .error e => (.error e, m')
  | .ok answers => (normalize_mapping (popularLoop size [] answers), m')

/-! Section: C5: rule evaluation and market mutation -/

/-- C5 counterexample: evaluating `FibonacciValueRule` on a market whose
fresh fetch differs from the stored snapshot mutates the market — the
snapshot is replaced by `market.refresh()`, so the claim that no field
of the market changes is false. -/
theorem rule_eval_purity_c5_counterexample :
    (fibonacciValueRule
        (fun _ => ⟨"m5", Outcome.FREE_RESPONSE, true, Option.none, [], Option.none, Option.none⟩)
        [] 0
        ⟨⟨"m5", Outcome.FREE_RESPONSE, false, Option.none, [], Option.none, Option.none⟩, "n"⟩).2
      ≠ ⟨⟨"m5", Outcome.FREE_RESPONSE, false, Option.none, [], Option.none, Option.none⟩, "n"⟩ := by
  intro h
  have := congrArg (fun m => m.market.isResolved) h
  simp [fibonacciValueRule, MarketRec.refresh, market_to_answer_map] at this

/-- C5 (amended): evaluating a rule leaves every field of the `Market`
record unchanged except that rules calling `market.refresh()`
(`FibonacciValueRule`, `PopularValueRule`, and the
`ThisToOtherConverter`-based rules) replace the market snapshot
`market.market` with the freshly fetched one; in particular the
orchestrator-owned fields survive evaluation untouched. -/
theorem rule_eval_frame_c5 (env : String → APIMarket) (exclude : List Int) (minRewarded : ℚ)
    (size : Nat) (m : MarketRec) :
    (fibonacciValueRule env exclude minRewarded m).2 = { m with market := env m.market.id }
    ∧ (popularValueRule env size m).2 = { m with market := env m.market.id }
    ∧ ((fibonacciValueRule env exclude minRewarded m).2).notes = m.notes
    ∧ ((popularValueRule env size m).2).notes = m.notes := by
  have hf : (fibonacciValueRule env exclude minRewarded m).2
      = { m with market := env m.market.id } := by
    rw [fibonacciValueRule]
    cases market_to_answer_map (m.refresh env).market exclude [fun _ p => p < minRewarded] <;>
      rfl
  have hp : (popularValueRule env size m).2 = { m with market := env m.market.id } := by
    rw [popularValueRule]
    cases market_to_answer_map (m.refresh env).market [] [] <;> rfl
  exact ⟨hf, hp, by rw [hf], by rw [hp]⟩

/-! Section: C8: the Fibonacci ranking rule -/

lemma fibPair_fst_le_snd (n : Nat) : (fibPair n).1 ≤ (fibPair n).2 := by
  cases n with
  | zero => exact Nat.zero_le 1
  | succ k => exact Nat.le_add_left _ _

lemma fibPair_snd_pos (n : Nat) : 1 ≤ (fibPair n).2 := by
  induction n with
  | zero => exact le_refl 1
  | succ k ih => exact le_trans ih (Nat.le_add_left _ _)

lemma fibonacci_pos (i : Nat) : 1 ≤ fibonacci i := by
  rw [fibonacci, Nat.add_comm]
  exact fibPair_snd_pos i

lemma fibonacci_le_succ (i : Nat) : fibonacci i ≤ fibonacci (i + 1) := by
  rw [fibonacci, fibonacci, Nat.add_comm 1 i, Nat.add_comm 1 (i + 1)]
  exact fibPair_fst_le_snd (i + 1)

lemma fibonacci_mono : Monotone fibonacci :=
  monotone_nat_of_le_succ fibonacci_le_succ

lemma zipWith_key_fst (g : Nat → ℚ) :
    ∀ (S : List (Int × ℚ)) (ns : List Nat), S.length = ns.length →
      (List.zipWith (fun kv i => (kv.1, g i)) S ns).map Prod.fst = S.map Prod.fst := by
  intro S
  induction S with
  | nil => intro ns _; simp
  | cons a as ih =>
    intro ns h
    cases ns with
    | nil => simp at h
    | cons b bs => simp [ih bs (by simpa using h)]

lemma zipWith_key_snd (g : Nat → ℚ) :
    ∀ (S : List (Int × ℚ)) (ns : List Nat), S.length = ns.length →
      (List.zipWith (fun kv i => (kv.1, g i)) S ns).map Prod.snd = ns.map g := by
  intro S
  induction S with
  | nil =>
    intro ns h
    have : ns = [] := by
      cases ns with
      | nil => rfl
      | cons b bs => simp at h
    simp [this]
  | cons a as ih =>
    intro ns h
    cases ns with
    | nil => simp at h
    | cons b bs => simp [ih bs (by simpa using h)]

/-- Spec-side description of the Fibonacci ranking, from the claim's
words: the remaining answers sorted ascending by probability are paired
with the successive Fibonacci numbers 1, 1, 2, 3, 5, ... as weights,
normalized by the total weight. -/
def fibRankClaim (answers : List (Int × ℚ)) : List (Int × ℚ) :=
  let sorted := List.insertionSort probLE answers
  let total : ℚ := ((List.range sorted.length).map (fun i => (fibonacci i : ℚ))).sum
  List.zipWith (fun kv i => (kv.1, (fibonacci i : ℚ) / total)) sorted
    (List.range sorted.length)

lemma fib_total_pos (n : Nat) (hn : n ≠ 0) :
    0 < ((List.range n).map (fun i => (fibonacci i : ℚ))).sum := by
  apply List.sum_pos
  · intro x hx
    simp only [List.mem_map] at hx
    obtain ⟨i, _, rfl⟩ := hx
    exact_mod_cast Nat.lt_of_lt_of_le Nat.zero_lt_one (fibonacci_pos i)
  · simpa [List.map_eq_nil_iff, List.range_eq_nil] using hn

/-- C8: for every MC-like market, `FibonacciValueRule._value` drops the
excluded ids and every answer whose probability is below `min_rewarded`,
sorts the remaining answers ascending by probability, assigns the
successive Fibonacci numbers 1, 1, 2, 3, 5, ... as weights from the
lowest-probability answer to the highest (the weight list ascends along
the ascending-probability ranking, so the most probable answer receives
the largest Fibonacci weight), and returns that mapping normalized to
sum 1.  `L` is the surviving answer map, assumed non-empty as the claim
presupposes ("the remaining answers"). -/
theorem fibonacci_rule_c8 (env : String → APIMarket) (exclude : List Int) (minRewarded : ℚ)
    (m : MarketRec) (L : List (Int × ℚ))
    (hmap : market_to_answer_map (env m.market.id) exclude
      [fun _ p => p < minRewarded] = Except.ok L)
    (hL : L ≠ []) :
    (fibonacciValueRule env exclude minRewarded m).1 = Except.ok (fibRankClaim L)
    ∧ List.Sorted probLE (List.insertionSort probLE L)
    ∧ List.Perm (List.insertionSort probLE L) L
    ∧ (fibRankClaim L).map Prod.fst = (List.insertionSort probLE L).map Prod.fst
    ∧ List.Sorted (· ≤ ·) ((fibRankClaim L).map Prod.snd)
    ∧ ((fibRankClaim L).map Prod.snd).sum = 1 := by
  have hperm := List.perm_insertionSort probLE L
  have hS_ne : List.insertionSort probLE L ≠ [] := by
    intro h
    exact hL (List.Perm.eq_nil ((h ▸ hperm).symm))
  have hn_ne : (List.insertionSort probLE L).length ≠ 0 := by
    rw [Ne, List.length_eq_zero]
    exact hS_ne
  have hlen : (List.insertionSort probLE L).length
      = (List.range (List.insertionSort probLE L).length).length := by
    simp
  have htotpos := fib_total_pos _ hn_ne
  have hsnd := zipWith_key_snd (fun i => (fibonacci i : ℚ)) (List.insertionSort probLE L)
    (List.range (List.insertionSort probLE L).length) hlen
  have hfstW := zipWith_key_fst
    (fun i => (fibonacci i : ℚ)
      / ((List.range (List.insertionSort probLE L).length).map
          (fun i => (fibonacci i : ℚ))).sum)
    (List.insertionSort probLE L)
    (List.range (List.insertionSort probLE L).length) hlen
  have hsndW := zipWith_key_snd
    (fun i => (fibonacci i : ℚ)
      / ((List.range (List.insertionSort probLE L).length).map
          (fun i => (fibonacci i : ℚ))).sum)
    (List.insertionSort probLE L)
    (List.range (List.insertionSort probLE L).length) hlen
  refine ⟨?_, List.sorted_insertionSort probLE L, hperm, ?_, ?_, ?_⟩
  · -- the evaluated rule equals the spec-side ranking
    have hret_ne : List.zipWith (fun kv i => (kv.1, (fibonacci i : ℚ)))
        (List.insertionSort probLE L)
        (List.range (List.insertionSort probLE L).length) ≠ [] := by
      intro h
      have := congrArg List.length h
      simp [List.length_zipWith] at this
      exact hL this
    have hkey : (fibonacciValueRule env exclude minRewarded m).1
        = normalize_mapping (List.zipWith (fun kv i => (kv.1, (fibonacci i : ℚ)))
            (List.insertionSort probLE L)
            (List.range (List.insertionSort probLE L).length)) := by
      simp only [fibonacciValueRule, MarketRec.refresh, hmap]
    rw [hkey]
    simp only [normalize_mapping, hsnd]
    rw [if_neg hret_ne, if_neg (ne_of_gt htotpos)]
    rw [List.map_zipWith]
    simp only [fibRankClaim, hsnd]
  · simp only [fibRankClaim]
    exact hfstW
  · simp only [fibRankClaim]
    rw [hsndW]
    have hpw := List.pairwise_lt_range (List.insertionSort probLE L).length
    refine List.Pairwise.map _ ?_ hpw
    intro a b hab
    apply div_le_div_of_nonneg_right ?_ htotpos.le
    exact_mod_cast fibonacci_mono hab.le
  · simp only [fibRankClaim]
    rw [hsndW]
    have hcomp : ((List.range (List.insertionSort probLE L).length).map
        (fun i => (fibonacci i : ℚ)
          / ((List.range (List.insertionSort probLE L).length).map
              (fun i => (fibonacci i : ℚ))).sum))
        = (((List.range (List.insertionSort probLE L).length).map
            (fun i => (fibonacci i : ℚ))).map
          (fun q => q / ((List.range (List.insertionSort probLE L).length).map
              (fun i => (fibonacci i : ℚ))).sum)) := by
      rw [List.map_map]
      rfl
    rw [hcomp, list_map_div_sum, div_self (ne_of_gt htotpos)]

/-- Witness for C8 on the spec's example probabilities
`{x: 0.1, y: 0.5, z: 0.05}` with `min_rewarded = 0`. -/
theorem fibonacci_rule_c8_witness :
    (fibonacciValueRule
        (fun _ => ⟨"m8", Outcome.FREE_RESPONSE, false, Option.none,
          [(0, 1/10), (1, 1/2), (2, 1/20)], Option.none, Option.none⟩)
        [] 0
        ⟨⟨"m8", Outcome.FREE_RESPONSE, false, Option.none,
          [(0, 1/10), (1, 1/2), (2, 1/20)], Option.none, Option.none⟩, "n"⟩).1
      = Except.ok (fibRankClaim [(0, 1/10), (1, 1/2), (2, 1/20)]) :=
  (fibonacci_rule_c8
    (fun _ => ⟨"m8", Outcome.FREE_RESPONSE, false, Option.none,
      [(0, 1/10), (1, 1/2), (2, 1/20)], Option.none, Option.none⟩)
    [] 0
    ⟨⟨"m8", Outcome.FREE_RESPONSE, false, Option.none,
      [(0, 1/10), (1, 1/2), (2, 1/20)], Option.none, Option.none⟩, "n"⟩
    [(0, 1/10), (1, 1/2), (2, 1/20)]
    (by
      simp only [market_to_answer_map]
      norm_num [List.filter]
      intro h
      exact absurd h (List.cons_ne_nil _ _))
    (by simp)).1

/-! Section: C9: the popular-value rule -/

lemma argmaxGo_mem (xs : List (Int × ℚ)) :
    ∀ best, argmaxGo best xs = best ∨ argmaxGo best xs ∈ xs := by
  induction xs with
  | nil => intro best; exact Or.inl rfl
  | cons x xs ih =>
    intro best
    rcases ih (if best.2 < x.2 then x else best) with h | h
    · rw [argmaxGo, h]
      by_cases hc : best.2 < x.2
      · rw [if_pos hc]; exact Or.inr (List.mem_cons_self x xs)
      · rw [if_neg hc]; exact Or.inl rfl
    · rw [argmaxGo]; exact Or.inr (List.mem_cons_of_mem x h)

lemma argmaxFirst_mem {l : List (Int × ℚ)} {kv : Int × ℚ}
    (h : argmaxFirst l = some kv) : kv ∈ l := by
  cases l with
  | nil => cases h
  | cons x xs =>
    rw [argmaxFirst] at h
    injection h with h
    rcases argmaxGo_mem xs x with h' | h'
    · rw [← h, h']; exact List.mem_cons_self x xs
    · rw [← h]; exact List.mem_cons_of_mem x h'

lemma perm_cons_delKey : ∀ (l : List (Int × ℚ)) (kv : Int × ℚ), kv ∈ l →
    (l.map Prod.fst).Nodup → List.Perm l (kv :: delKey kv.1 l) := by
  intro l
  induction l with
  | nil => intro kv h _; cases h
  | cons a as ih =>
    intro kv hmem hnd
    rw [List.map_cons, List.nodup_cons] at hnd
    by_cases hk : a.1 = kv.1
    · have hkva : kv = a := by
        rcases List.mem_cons.mp hmem with h | h
        · exact h
        · exact absurd (hk ▸ List.mem_map_of_mem Prod.fst h) hnd.1
      subst hkva
      have hdel : delKey kv.1 (kv :: as) = as := by
        rw [delKey, List.eraseP_cons]
        simp
      rw [hdel]
    · have hmem2 : kv ∈ as := by
        rcases List.mem_cons.mp hmem with h | h
        · exact absurd (congrArg Prod.fst h).symm hk
        · exact h
      have hdel : delKey kv.1 (a :: as) = a :: delKey kv.1 as := by
        rw [delKey, delKey, List.eraseP_cons]
        rw [show (a.1 == kv.1) = false from beq_eq_false_iff_ne.mpr hk]
        rfl
      rw [hdel]
      exact (List.Perm.cons a (ih kv hmem2 hnd.2)).trans
        (List.Perm.swap kv a (delKey kv.1 as))

lemma popularLoop_perm : ∀ (k : Nat) (answers final : List (Int × ℚ)),
    answers.length < k → (answers.map Prod.fst).Nodup →
    List.Perm (popularLoop k final answers) (final ++ answers) := by
  intro k
  induction k with
  | zero => intro answers final h _; exact absurd h (Nat.not_lt_zero _)
  | succ k ih =>
    intro answers final h hnd
    cases hax : argmaxFirst answers with
    | none =>
      have hnil : answers = [] := by
        cases answers with
        | nil => rfl
        | cons x xs => rw [argmaxFirst] at hax; cases hax
      rw [popularLoop, hax]
      simp [hnil]
    | some kv =>
      have hmem := argmaxFirst_mem hax
      have hpc := perm_cons_delKey answers kv hmem hnd
      have hpos : 0 < answers.length := List.length_pos_of_mem hmem
      have h1 : (delKey kv.1 answers).length = answers.length - 1 :=
        List.length_eraseP_of_mem hmem (by simp)
      have hlen : (delKey kv.1 answers).length < k := by omega
      have hnd2 : ((delKey kv.1 answers).map Prod.fst).Nodup :=
        hnd.sublist (List.Sublist.map Prod.fst (List.eraseP_sublist answers))
      rw [popularLoop, hax]
      have hloop := ih (delKey kv.1 answers) (final ++ [kv]) hlen hnd2
      have hstep : (final ++ [kv]) ++ delKey kv.1 answers
          = final ++ (kv :: delKey kv.1 answers) := by simp
      exact hloop.trans (hstep ▸ List.Perm.append_left final hpc.symm)

/-- C9 counterexample: a one-answer MC market whose sole probability is
0 makes `PopularValueRule(size=2)._value` raise `ZeroDivisionError` in
`normalize_mapping` — the empty-sequence error is swallowed, but the
normalization still divides by the zero total, so the rule does raise. -/
theorem popular_rule_c9_counterexample :
    (popularValueRule
        (fun _ => ⟨"m9", Outcome.FREE_RESPONSE, false, Option.none, [(0, 0)],
          Option.none, Option.none⟩)
        2
        ⟨⟨"m9", Outcome.FREE_RESPONSE, false, Option.none, [(0, 0)],
          Option.none, Option.none⟩, "n"⟩).1
      = Except.error PyErr.zeroDivisionError := by
  simp only [popularValueRule, MarketRec.refresh, market_to_answer_map]
  norm_num [popularLoop, argmaxFirst, argmaxGo, delKey, normalize_mapping,
    List.filter, List.eraseP]

/-- C9 (amended): for every MC-like market with `n ≥ 1` answers whose
probabilities do not sum to zero, and every `PopularValueRule` whose
`size` exceeds `n`, `_value` does not raise: the argmax-and-remove
loop's empty-sequence error is swallowed, and the rule returns the
normalized mapping of all `n` answers weighted by their original
probabilities (the selection is a permutation of the whole answer map,
each weight is the original probability divided by the original total,
and the weights sum to 1).  When the probabilities sum to zero the
normalization divides by zero instead. -/
theorem popular_rule_c9 (env : String → APIMarket) (size : Nat) (m : MarketRec)
    (L : List (Int × ℚ))
    (hmap : market_to_answer_map (env m.market.id) [] [] = Except.ok L)
    (hnd : (L.map Prod.fst).Nodup)
    (hsize : L.length < size)
    (htot : (L.map Prod.snd).sum ≠ 0) :
    List.Perm (popularLoop size [] L) L
    ∧ (popularValueRule env size m).1
        = Except.ok ((popularLoop size [] L).map
            (fun kv => (kv.1, kv.2 / (L.map Prod.snd).sum)))
    ∧ (((popularLoop size [] L).map
        (fun kv => (kv.1, kv.2 / (L.map Prod.snd).sum))).map Prod.snd).sum = 1 := by
  have hperm : List.Perm (popularLoop size [] L) L := by
    simpa using popularLoop_perm size L [] hsize hnd
  have hsum : ((popularLoop size [] L).map Prod.snd).sum = (L.map Prod.snd).sum :=
    List.Perm.sum_eq (hperm.map Prod.snd)
  have hL_ne : L ≠ [] := by
    intro h
    rw [h] at htot
    simp at htot
  have hP_ne : popularLoop size [] L ≠ [] := by
    intro h
    have hl := hperm.length_eq
    rw [h] at hl
    exact hL_ne (List.length_eq_zero.mp hl.symm)
  have hkey : (popularValueRule env size m).1 = normalize_mapping (popularLoop size [] L) := by
    simp only [popularValueRule, MarketRec.refresh, hmap]
  refine ⟨hperm, ?_, ?_⟩
  · rw [hkey]
    simp only [normalize_mapping, hsum]
    rw [if_neg hP_ne, if_neg htot]
  · have hdiv : (((popularLoop size [] L).map
        (fun kv => (kv.1, kv.2 / (L.map Prod.snd).sum))).map Prod.snd)
        = ((popularLoop size [] L).map Prod.snd).map
            (fun q => q / (L.map Prod.snd).sum) := by
      rw [List.map_map, List.map_map]
      rfl
    rw [hdiv, list_map_div_sum, hsum, div_self htot]

/-- Witness for C9: two answers with probabilities 1/2 and 1/4 and
`size = 3` come back normalized over both answers. -/
theorem popular_rule_c9_witness :
    (popularValueRule
        (fun _ => ⟨"m9w", Outcome.FREE_RESPONSE, false, Option.none,
          [(0, 1/2), (1, 1/4)], Option.none, Option.none⟩)
        3
        ⟨⟨"m9w", Outcome.FREE_RESPONSE, false, Option.none,
          [(0, 1/2), (1, 1/4)], Option.none, Option.none⟩, "n"⟩).1
      = Except.ok ((popularLoop 3 [] [(0, 1/2), (1, 1/4)]).map
          (fun kv => (kv.1, kv.2 / (([(0, 1/2), (1, 1/4)] : List (Int × ℚ)).map Prod.snd).sum))) :=
  (popular_rule_c9
    (fun _ => ⟨"m9w", Outcome.FREE_RESPONSE, false, Option.none,
      [(0, 1/2), (1, 1/4)], Option.none, Option.none⟩)
    3
    ⟨⟨"m9w", Outcome.FREE_RESPONSE, false, Option.none,
      [(0, 1/2), (1, 1/4)], Option.none, Option.none⟩, "n"⟩
    [(0, 1/2), (1, 1/4)]
    (by
      simp only [market_to_answer_map]
      norm_num [List.filter]
      intro h
      exact absurd h (List.cons_ne_nil _ _))
    (by decide)
    (by norm_num)
    (by norm_num [List.sum_cons, List.sum_nil])).2.1

end MMM
